import Mathlib

/-!
Shallow embedding of the icloud-imap-cleanup pipeline.

Sources embedded:
  * `imap_cleanup/email_analyzer.py` — `EmailAnalyzer.parse_from_address`,
    `EmailAnalyzer.should_process_email`, `EmailAnalyzer._determine_match_reason`.
  * `imap_cleanup/imap_manager.py` — `IMAPManager.search_uids`,
    `IMAPManager.fetch_headers`, `IMAPManager.move_email`.
  * `imap_cleanup/email_processor.py` — batch slicing in
    `EmailProcessor._process_candidates` / `_execute_actions`, and
    `EmailProcessor._execute_action_batch`.

Python strings are modelled as Lean `String`; the Python library
operations used by the code (`in`, `endswith`, `split`, `strip`,
`lower`) are modelled by the `py*` helpers below on the character
lists of the strings.  Network calls are modelled by explicit outcome
values supplied as arguments: each protocol call the code makes is one
outcome (a response pair or a raised exception), so a run of the code
is a pure function of those outcomes.  Exceptions that the Python code
catches are absorbed inside the embedded function; the embedded
functions are total precisely because every exception class the claims
mention is caught by the source.
-/

/-- Python `needle in hay` on lists (contiguous-substring test). -/
def listHasSub (needle : List Char) : List Char → Bool
  | [] => needle.isEmpty
  | c :: t => needle.isPrefixOf (c :: t) || listHasSub needle t

/-- Python `needle in hay` for strings: contiguous substring containment. -/
def pyContains (hay needle : String) : Bool :=
  listHasSub needle.toList hay.toList

/-- Python `s.endswith(suffix)`. -/
def pyEndsWith (s suffix : String) : Bool :=
  suffix.toList.reverse.isPrefixOf s.toList.reverse

/-- Python `s.split(sep)` for a one-character separator, on char lists. -/
def pySplit (sep : Char) : List Char → List (List Char)
  | [] => [[]]
  | c :: t => if c = sep then [] :: pySplit sep t else (pySplit sep t).modifyHead (c :: ·)

/-- Split a char list at every char satisfying `p` (Python-style `split`,
keeping empty pieces). -/
def splitChars (p : Char → Bool) : List Char → List (List Char)
  | [] => [[]]
  | c :: t => if p c then [] :: splitChars p t else (splitChars p t).modifyHead (c :: ·)

/-- Python `s.split()` (split on whitespace runs, dropping empty pieces). -/
def pyWords (s : String) : List String :=
  ((splitChars Char.isWhitespace s.toList).map String.mk).filter (fun t => t ≠ "")

/-- Python `s.lower()`: lowercase every character. -/
def pyLower (s : String) : String :=
  String.mk (s.toList.map Char.toLower)

/-- Python `s.strip()` (drop leading and trailing whitespace). -/
def pyStrip (s : String) : String :=
  String.mk (((s.toList.dropWhile Char.isWhitespace).reverse.dropWhile Char.isWhitespace).reverse)

/-- A single-quote character, used by the reason f-strings of the analyzer. -/
def quoteStr : String := String.singleton (Char.ofNat 39)

/-- The rule configuration of `EmailAnalyzer.__init__`. -/
structure EmailAnalyzer where
  whitelist : Finset String
  protect_keywords : List String
  subject_keywords : List String
  delete_domains : List String

/-- `EmailAnalyzer.parse_from_address`.  `parseaddr` models
`email.utils.parseaddr(h)[1]` (an external library call): the address part
extracted from the raw From header.  The code lowercases that address and
takes `addr.split("@")[-1]` as the domain when an `@` is present. -/
def parse_from_address (parseaddr : String → String) (from_header : String) :
    String × String :=
  let addr := pyLower (parseaddr from_header)
  let domain :=
    if pyContains addr "@" then String.mk ((pySplit (Char.ofNat 64) addr.toList).getLastD [])
    else ""
  (addr, domain)

/-- `EmailAnalyzer._determine_match_reason`: reason attribution in the fixed
order set A, set B, set C, with the in-set keyword / domain searches done by
a first-match scan over the configured lists. -/
def determine_match_reason (A : EmailAnalyzer) (uid : String) (subj_lower : String)
    (domain : String) (addr : String) (set_a set_b set_c : Finset String) : String :=
  if uid ∈ set_a then
    "List-Unsubscribe header"
  else if uid ∈ set_b then
    match A.subject_keywords.find? (fun kw => pyContains subj_lower (pyLower kw)) with
    | some kw => "subject keyword " ++ quoteStr ++ kw ++ quoteStr
    | none => "subject keyword"
  else if uid ∈ set_c then
    match A.delete_domains.find? (fun d => domain = d || pyEndsWith addr ("@" ++ d)) with
    | some d => "delete domain " ++ quoteStr ++ d ++ quoteStr
    | none => "delete domain"
  else
    "unknown"

/-- `EmailAnalyzer.should_process_email`.  Returns
`some (action, reason, addr, subject)` or `none` (Python `None`) when the
From header is absent. -/
def should_process_email (A : EmailAnalyzer) (parseaddr : String → String)
    (uid : String) (from_raw : Option String) (subject : Option String)
    (set_a set_b set_c : Finset String) :
    Option (String × String × String × String) :=
  match from_raw with
  | none => none
  | some f =>
    let p := parse_from_address parseaddr f
    let addr := p.1
    let domain := p.2
    if addr ∈ A.whitelist ∨ domain ∈ A.whitelist then
      some ("skip", "whitelist", addr, subject.getD "")
    else
      let subj_lower := pyLower (subject.getD "")
      if A.protect_keywords.any (fun pk => pyContains subj_lower pk) then
        some ("skip", "protected subject", addr, subject.getD "")
      else
        some ("process",
          determine_match_reason A uid subj_lower domain addr set_a set_b set_c,
          addr, subject.getD "")

/-- Outcome of one `conn.uid("SEARCH", None, query)` attempt inside
`IMAPManager.search_uids`.  `netErr` models a raised `socket.timeout` or
`socket.error`; `otherExc` models any other raised exception; `resp typ data`
models a normal return, where each entry of `data` is either Python `None`
or a byte-string (already decoded). -/
inductive AttemptResult where
  | netErr : AttemptResult
  | otherExc : AttemptResult
  | resp (typ : String) (data : List (Option String)) : AttemptResult
deriving DecidableEq

/-- The UID set the code builds from a successful search response:
`set(data[0].decode().split())`. -/
def uidSetOfData (s : String) : Finset String :=
  (pyWords s).toFinset

/-- The retry loop of `IMAPManager.search_uids`, over the list of outcomes of
the successive attempts (the list has `max_retries + 1` entries, one per
iteration of `for attempt in range(max_retries + 1)`).  A network error on
the last attempt (`attempt == max_retries`, i.e. empty tail) returns the
empty set; on an earlier attempt the loop continues; any other exception,
and any non-OK / absent-data response, returns the empty set at once. -/
def searchLoop : List AttemptResult → Finset String
  | [] => ∅
  | a :: rest =>
    match a with
    | .resp typ data =>
      if typ ≠ "OK" ∨ data = [] ∨ data.head? = some none then ∅
      else
        match data.head? with
        | some (some s) => uidSetOfData s
        | _ => ∅
    | .netErr => match rest with
      | [] => ∅
      | b :: t => searchLoop (b :: t)
    | .otherExc => ∅

/-- `IMAPManager.search_uids`: `attempts i` is the outcome the server and
network would produce for the i-th search attempt; the loop runs over
attempts `0 .. max_retries`. -/
def search_uids (attempts : Nat → AttemptResult) (max_retries : Nat) : Finset String :=
  searchLoop ((List.range (max_retries + 1)).map attempts)

/-- A non-network failure of one search attempt: a raised non-network
exception, or a response with non-OK status or absent data. -/
def nonNetworkFailure : AttemptResult → Bool
  | .netErr => false
  | .otherExc => true
  | .resp typ data => typ ≠ "OK" ∨ data = [] ∨ data.head? = some none

/-- Outcome of the `conn.uid("FETCH", uid, ...)` call in
`IMAPManager.fetch_headers`: a raised exception, or a response `(typ, msg_data)`
where each entry of `msg_data` is Python `None` or a value whose `[1]`
component is the raw header bytes (the entry is modelled by that component,
of abstract type `Raw`). -/
inductive FetchOutcome (Raw : Type) where
  | exc : FetchOutcome Raw
  | resp (typ : String) (msg_data : List (Option Raw)) : FetchOutcome Raw

/-- `IMAPManager.fetch_headers`.  `parseMsg` models
`email.message_from_bytes` followed by the two header reads: it yields
`(msg.get("From", ""), str(make_header(decode_header(msg.get("Subject", "")))))`,
or `none` when any of those library calls raises (the `except Exception`
branch).  The code strips the decoded subject and returns the raw From
header unchanged; every failure path returns `(None, None)`. -/
def fetch_headers {Raw : Type} [DecidableEq Raw] (parseMsg : Raw → Option (String × String))
    (outcome : FetchOutcome Raw) : Option String × Option String :=
  match outcome with
  | .exc => (none, none)
  | .resp typ msg_data =>
    if typ ≠ "OK" ∨ msg_data = [] ∨ msg_data.head? = some none then (none, none)
    else
      match msg_data.head? with
      | some (some raw) =>
        match parseMsg raw with
        | none => (none, none)
        | some fs => (some fs.1, some (pyStrip fs.2))
      | _ => (none, none)

/-- Outcomes of the protocol calls `IMAPManager.move_email` can issue, in
order: UID MOVE, UID COPY, UID STORE, EXPUNGE.  `Except.error ()` models a
raised exception (caught by the enclosing `except Exception`); `Except.ok`
carries the returned status where the code inspects one. -/
structure MoveEnv where
  uidMove : Except Unit String
  uidCopy : Except Unit String
  uidStore : Except Unit Unit
  expunge : Except Unit Unit

/-- `IMAPManager.move_email`: UID MOVE first; on a non-OK MOVE status, UID
COPY, then STORE `\Deleted`, then EXPUNGE; `False` when COPY has a non-OK
status; `False` when any call raises. -/
def move_email (env : MoveEnv) : Bool :=
  match env.uidMove with
  | .error _ => false
  | .ok typ =>
    if typ = "OK" then true
    else
      match env.uidCopy with
      | .error _ => false
      | .ok ctyp =>
        if ctyp ≠ "OK" then false
        else
          match env.uidStore with
          | .error _ => false
          | .ok _ =>
            match env.expunge with
            | .error _ => false
            | .ok _ => true

/-- The Python batch slicing `[xs[i:i + b] for i in range(0, len(xs), b)]`
used by `EmailProcessor._process_candidates` (header batches) and by
`EmailProcessor._execute_actions` (action batches).  The fuel argument of
the auxiliary function is only a termination bound; with `1 ≤ b` a fuel of
`xs.length` is never exhausted, so `chunks` computes exactly the Python
slices. -/
def chunksAux {α : Type} (b : Nat) : Nat → List α → List (List α)
  | _, [] => []
  | 0, _ :: _ => []
  | fuel + 1, x :: t => (x :: t).take b :: chunksAux b fuel ((x :: t).drop b)

/-- Batch slicing of a list into consecutive slices of size `b`. -/
def chunks {α : Type} (xs : List α) (b : Nat) : List (List α) :=
  chunksAux b xs.length xs

/-- One queued action tuple `(uid, reason, addr, subject)` of
`EmailProcessor._process_candidates` phase 2. -/
structure EmailAction where
  uid : String
  reason : String
  addr : String
  subject : String
deriving DecidableEq

/-- A protocol call issued by `EmailProcessor._execute_action_batch`:
a writable folder select (`conn.select(folder)`), or a message move
(`IMAPManager.move_email`, itself MOVE or COPY/STORE/EXPUNGE — mutating in
either branch). -/
inductive ProtoOp where
  | selectWritable (folder : String) : ProtoOp
  | moveEmail (uid : String) (dest : String) : ProtoOp
deriving DecidableEq

/-- `EmailProcessor._execute_action_batch`: returns the moved count together
with the trace of protocol calls issued.  `moveOk uid` models whether
`IMAPManager.move_email` reports success for that UID.  In dry-run mode the
writable select is skipped, each action is counted as processed, and no
protocol call is issued; otherwise the folder is selected writable once and
each action issues one move. -/
def execute_action_batch (folder : String) (actions : List EmailAction)
    (target_folder : String) (dry_run : Bool) (moveOk : String → Bool) :
    Nat × List ProtoOp :=
  let init : Nat × List ProtoOp :=
    (0, if dry_run then [] else [ProtoOp.selectWritable folder])
  actions.foldl
    (fun acc a =>
      if dry_run then (acc.1 + 1, acc.2)
      else ((if moveOk a.uid then acc.1 + 1 else acc.1),
            acc.2 ++ [ProtoOp.moveEmail a.uid target_folder]))
    init

/-- `EmailProcessor._execute_actions`: slice the action list into batches of
`batch_size`, run `execute_action_batch` on each, and sum the per-batch moved
counts (the trace concatenates the batch traces). -/
def execute_actions (folder : String) (actions : List EmailAction)
    (target_folder : String) (dry_run : Bool) (batch_size : Nat)
    (moveOk : String → Bool) : Nat × List ProtoOp :=
  (chunks actions batch_size).foldl
    (fun acc batch =>
      let r := execute_action_batch folder batch target_folder dry_run moveOk
      (acc.1 + r.1, acc.2 ++ r.2))
    (0, [])

/-- The suffix of a character list strictly after its last occurrence of
`sep` (the whole list when `sep` does not occur).  This is the
specification-side description of the domain component of
`parse_from_address`: the substring after the last `@`. -/
def afterLast (sep : Char) (l : List Char) : List Char :=
  (l.reverse.takeWhile (fun c => c ≠ sep)).reverse

/-- Specification-side domain extraction, following the words of the claim:
the substring of the lowercased address after its last `@`, or the empty
string when the address contains no `@`. -/
def domainAfterLastAt (addr : String) : String :=
  if (Char.ofNat 64) ∈ addr.toList then String.mk (afterLast (Char.ofNat 64) addr.toList)
  else ""

/-- Claim C1: for every message whose parsed sender address or sender domain
is in the whitelist, `should_process_email` returns Skip with reason
"whitelist", regardless of the membership of the UID in the match sets A, B,
C and regardless of protect-keyword matches in the subject. -/
theorem whitelist_skip_of_mem (A : EmailAnalyzer) (pa : String → String)
    (uid f : String) (subject : Option String) (set_a set_b set_c : Finset String)
    (h : (parse_from_address pa f).1 ∈ A.whitelist ∨
         (parse_from_address pa f).2 ∈ A.whitelist) :
    should_process_email A pa uid (some f) subject set_a set_b set_c =
      some ("skip", "whitelist", (parse_from_address pa f).1, subject.getD "") := by
  simp only [should_process_email]
  rw [if_pos h]

/-- Witness for C1 at a concrete whitelisted sender that is also in match set
A and whose subject holds a trigger keyword. -/
theorem whitelist_skip_of_mem_witness :
    ((parse_from_address id "Alice@Shop.COM").1 ∈ ({"alice@shop.com"} : Finset String) ∨
      (parse_from_address id "Alice@Shop.COM").2 ∈ ({"alice@shop.com"} : Finset String)) ∧
    should_process_email ⟨{"alice@shop.com"}, ["invoice"], ["promo"], []⟩ id "9"
        (some "Alice@Shop.COM") (some "promo time") {"9"} ∅ ∅ =
      some ("skip", "whitelist", "alice@shop.com", "promo time") := by
  refine ⟨by decide, ?_⟩
  have h := whitelist_skip_of_mem ⟨{"alice@shop.com"}, ["invoice"], ["promo"], []⟩ id "9"
    "Alice@Shop.COM" (some "promo time") {"9"} ∅ ∅ (by decide)
  rw [h]
  decide

/-- Claim C2, counterexample: the protect-keyword test of
`should_process_email` lowercases only the subject, not the keyword, so a
protect keyword holding an uppercase letter never matches even though the
subject contains it as a case-insensitive substring: with protect keyword
"INVOICE" and subject "INVOICE" the message is processed, not skipped. -/
theorem protect_keyword_case_counterexample :
    should_process_email ⟨∅, ["INVOICE"], [], []⟩ id "1" (some "a@b.c")
        (some "INVOICE") ∅ ∅ ∅ =
      some ("process", "unknown", "a@b.c", "INVOICE") ∧
    pyContains (pyLower "INVOICE") (pyLower "INVOICE") = true := by
  exact ⟨by decide, by decide⟩

/-- Claim C2 as amended: for every non-whitelisted message, if the lowercased
subject contains a protect keyword verbatim (matching is case-insensitive in
the subject but case-sensitive in the keyword), `should_process_email`
returns Skip with reason "protected subject". -/
theorem protected_subject_skip (A : EmailAnalyzer) (pa : String → String)
    (uid f : String) (subject : Option String) (set_a set_b set_c : Finset String)
    (hw : ¬((parse_from_address pa f).1 ∈ A.whitelist ∨
            (parse_from_address pa f).2 ∈ A.whitelist))
    (hp : ∃ pk ∈ A.protect_keywords,
            pyContains (pyLower (subject.getD "")) pk = true) :
    should_process_email A pa uid (some f) subject set_a set_b set_c =
      some ("skip", "protected subject", (parse_from_address pa f).1, subject.getD "") := by
  simp only [should_process_email]
  rw [if_neg hw, if_pos (List.any_eq_true.mpr hp)]

/-- Witness for the amended C2 at a concrete lowercase protect keyword and a
mixed-case subject. -/
theorem protected_subject_skip_witness :
    (¬((parse_from_address id "a@b.c").1 ∈ (∅ : Finset String) ∨
       (parse_from_address id "a@b.c").2 ∈ (∅ : Finset String))) ∧
    should_process_email ⟨∅, ["invoice"], [], []⟩ id "1" (some "a@b.c")
        (some "Your INVOICE is here") ∅ ∅ ∅ =
      some ("skip", "protected subject", "a@b.c", "Your INVOICE is here") := by
  refine ⟨by decide, ?_⟩
  have h := protected_subject_skip ⟨∅, ["invoice"], [], []⟩ id "1" "a@b.c"
    (some "Your INVOICE is here") ∅ ∅ ∅ (by decide) ⟨"invoice", by decide, by decide⟩
  rw [h]
  decide

/-- Claim C3: for every message that is neither whitelisted nor protected,
the Process reason is attributed in the fixed order A, then B, then C:
"List-Unsubscribe header" when the UID is in set A; else, when in set B, the
first trigger keyword (in list order) whose lowercasing occurs in the
lowercased subject; else, when in set C, the first deletion domain (in list
order) equal to the sender domain or such that the address ends with
"@" followed by it; else "unknown". -/
theorem match_reason_attribution (A : EmailAnalyzer) (pa : String → String)
    (uid f : String) (subject : Option String) (set_a set_b set_c : Finset String)
    (hw : ¬((parse_from_address pa f).1 ∈ A.whitelist ∨
            (parse_from_address pa f).2 ∈ A.whitelist))
    (hp : A.protect_keywords.any
            (fun pk => pyContains (pyLower (subject.getD "")) pk) = false) :
    (uid ∈ set_a →
      should_process_email A pa uid (some f) subject set_a set_b set_c =
        some ("process", "List-Unsubscribe header",
          (parse_from_address pa f).1, subject.getD "")) ∧
    (uid ∉ set_a → uid ∈ set_b → ∀ kw,
      A.subject_keywords.find?
          (fun kw => pyContains (pyLower (subject.getD "")) (pyLower kw)) = some kw →
      should_process_email A pa uid (some f) subject set_a set_b set_c =
        some ("process", "subject keyword " ++ quoteStr ++ kw ++ quoteStr,
          (parse_from_address pa f).1, subject.getD "")) ∧
    (uid ∉ set_a → uid ∉ set_b → uid ∈ set_c → ∀ d,
      A.delete_domains.find?
          (fun d => (parse_from_address pa f).2 = d ||
                    pyEndsWith (parse_from_address pa f).1 ("@" ++ d)) = some d →
      should_process_email A pa uid (some f) subject set_a set_b set_c =
        some ("process", "delete domain " ++ quoteStr ++ d ++ quoteStr,
          (parse_from_address pa f).1, subject.getD "")) ∧
    (uid ∉ set_a → uid ∉ set_b → uid ∉ set_c →
      should_process_email A pa uid (some f) subject set_a set_b set_c =
        some ("process", "unknown", (parse_from_address pa f).1, subject.getD "")) := by
  have base : should_process_email A pa uid (some f) subject set_a set_b set_c =
      some ("process",
        determine_match_reason A uid (pyLower (subject.getD ""))
          (parse_from_address pa f).2 (parse_from_address pa f).1 set_a set_b set_c,
        (parse_from_address pa f).1, subject.getD "") := by
    simp only [should_process_email]
    rw [if_neg hw, if_neg (by simp [hp])]
  refine ⟨?_, ?_, ?_, ?_⟩
  · intro ha
    rw [base]
    simp only [determine_match_reason]
    rw [if_pos ha]
  · intro ha hb kw hkw
    rw [base]
    simp only [determine_match_reason]
    rw [if_neg ha, if_pos hb, hkw]
  · intro ha hb hc d hd
    rw [base]
    simp only [determine_match_reason]
    rw [if_neg ha, if_neg hb, if_pos hc, hd]
  · intro ha hb hc
    rw [base]
    simp only [determine_match_reason]
    rw [if_neg ha, if_neg hb, if_neg hc]

/-- Witness for C3 at a concrete message in set B only, whose subject holds
the second configured trigger keyword. -/
theorem match_reason_attribution_witness :
    should_process_email ⟨∅, ["invoice"], ["news", "promo"], ["evil.com"]⟩ id "7"
        (some "Bob@shop.com") (some "Big PROMO now") ∅ {"7"} ∅ =
      some ("process", "subject keyword " ++ quoteStr ++ "promo" ++ quoteStr,
        "bob@shop.com", "Big PROMO now") := by
  have h := (match_reason_attribution ⟨∅, ["invoice"], ["news", "promo"], ["evil.com"]⟩
    id "7" "Bob@shop.com" (some "Big PROMO now") ∅ {"7"} ∅
    (by decide) (by decide)).2.1 (by decide) (by decide) "promo" (by decide)
  rw [h]
  decide

theorem searchLoop_netErr_cons (b : AttemptResult) (t : List AttemptResult) :
    searchLoop (AttemptResult.netErr :: b :: t) = searchLoop (b :: t) := rfl

theorem searchLoop_replicate_netErr :
    ∀ n, searchLoop (List.replicate n AttemptResult.netErr) = ∅
  | 0 => rfl
  | 1 => rfl
  | n + 2 => by
    rw [List.replicate_succ, List.replicate_succ, searchLoop_netErr_cons,
      ← List.replicate_succ]
    exact searchLoop_replicate_netErr (n + 1)

/-- After `k` leading network errors (`k ≤ max_retries`), the retry loop of
`search_uids` behaves as the loop restarted at attempt `k`. -/
theorem search_uids_skip_netErr (attempts : Nat → AttemptResult) (m : Nat) :
    ∀ k, k ≤ m → (∀ i, i < k → attempts i = AttemptResult.netErr) →
    search_uids attempts m = searchLoop ((List.range' k (m + 1 - k)).map attempts) := by
  intro k
  induction k with
  | zero =>
    intro _ _
    simp only [search_uids, Nat.sub_zero, List.range_eq_range']
  | succ k ih =>
    intro hk h
    rw [ih (by omega) (fun i hi => h i (by omega))]
    rw [show m + 1 - k = (m - k) + 1 from by omega, List.range'_succ, List.map_cons,
      h k (by omega)]
    rw [show m - k = (m - (k + 1)) + 1 from by omega, List.range'_succ, List.map_cons,
      searchLoop_netErr_cons, ← List.map_cons, ← List.range'_succ]
    rw [show m - (k + 1) + 1 = m + 1 - (k + 1) from by omega]

/-- Claim C4: if the search raises a transient network fault on exactly the
first `k` attempts, `k < max_retries`, and the next attempt succeeds, then
`search_uids` returns the UID set of the successful attempt; and if every
attempt fails with a transient network fault, it returns the empty set (the
embedding is total: the code catches every such fault, so nothing is
raised). -/
theorem search_retry (attempts : Nat → AttemptResult) (max_retries k : Nat)
    (s : String) (ds : List (Option String)) :
    (k < max_retries → (∀ i, i < k → attempts i = AttemptResult.netErr) →
      attempts k = AttemptResult.resp "OK" (some s :: ds) →
      search_uids attempts max_retries = uidSetOfData s) ∧
    ((∀ i, i ≤ max_retries → attempts i = AttemptResult.netErr) →
      search_uids attempts max_retries = ∅) := by
  constructor
  · intro hk hpre hsucc
    rw [search_uids_skip_netErr attempts max_retries k (by omega) hpre]
    rw [show max_retries + 1 - k = (max_retries - k) + 1 from by omega,
      List.range'_succ, List.map_cons, hsucc]
    simp [searchLoop]
  · intro hall
    have hrep : (List.range (max_retries + 1)).map attempts =
        List.replicate (max_retries + 1) AttemptResult.netErr := by
      apply List.eq_replicate_iff.mpr
      refine ⟨by simp, ?_⟩
      intro x hx
      obtain ⟨i, hi, rfl⟩ := List.mem_map.mp hx
      exact hall i (by simpa [List.mem_range, Nat.lt_succ_iff] using hi)
    rw [search_uids, hrep]
    exact searchLoop_replicate_netErr (max_retries + 1)

/-- Witness for C4: one network fault then a success returns the parsed UID
set; all-faults returns the empty set. -/
theorem search_retry_witness :
    search_uids (fun i => if i = 0 then AttemptResult.netErr
      else AttemptResult.resp "OK" [some "5 7"]) 2 = uidSetOfData "5 7" ∧
    search_uids (fun _ => AttemptResult.netErr) 2 = ∅ := by
  constructor
  · exact (search_retry (fun i => if i = 0 then AttemptResult.netErr
      else AttemptResult.resp "OK" [some "5 7"]) 2 1 "5 7" []).1
      (by omega)
      (fun i hi => by
        have h0 : i = 0 := Nat.lt_one_iff.mp hi
        subst h0; rfl)
      rfl
  · exact (search_retry (fun _ => AttemptResult.netErr) 2 0 "" []).2 (fun i _ => rfl)

/-- Claim C5: a non-network failure of a search attempt (non-OK status,
absent response data, or a non-network exception), reached after only
network faults, makes `search_uids` return the empty set at once, for every
continuation of the attempt sequence (so no retry is attempted and, the code
catching the exception, nothing reaches the caller). -/
theorem search_nonnetwork_failure_empty (attempts : Nat → AttemptResult)
    (max_retries j : Nat) (hj : j ≤ max_retries)
    (hpre : ∀ i, i < j → attempts i = AttemptResult.netErr)
    (hfail : nonNetworkFailure (attempts j) = true) :
    search_uids attempts max_retries = ∅ := by
  rw [search_uids_skip_netErr attempts max_retries j hj hpre]
  rw [show max_retries + 1 - j = (max_retries - j) + 1 from by omega,
    List.range'_succ, List.map_cons]
  cases hatt : attempts j with
  | netErr => rw [hatt] at hfail; simp [nonNetworkFailure] at hfail
  | otherExc => simp [searchLoop]
  | resp typ data =>
    rw [hatt] at hfail
    simp only [nonNetworkFailure, decide_eq_true_eq] at hfail
    simp only [searchLoop]
    rw [if_pos hfail]

/-- Witness for C5: a non-OK response on the very first attempt yields the
empty set even though later attempts would succeed. -/
theorem search_nonnetwork_failure_empty_witness :
    search_uids (fun i => if i = 0 then AttemptResult.resp "NO" [some "1 2"]
      else AttemptResult.resp "OK" [some "1 2"]) 3 = ∅ := by
  exact search_nonnetwork_failure_empty
    (fun i => if i = 0 then AttemptResult.resp "NO" [some "1 2"]
      else AttemptResult.resp "OK" [some "1 2"]) 3 0
    (by omega) (fun i hi => absurd hi (by omega)) (by decide)

theorem chunksAux_flatten {α : Type} (b : Nat) (hb : 1 ≤ b) :
    ∀ fuel l, List.length l ≤ fuel → (chunksAux (α := α) b fuel l).flatten = l := by
  intro fuel
  induction fuel with
  | zero =>
    intro l hl
    cases l with
    | nil => rfl
    | cons x t => simp at hl
  | succ n ih =>
    intro l hl
    cases l with
    | nil => rfl
    | cons x t =>
      simp only [chunksAux, List.flatten_cons]
      rw [ih ((x :: t).drop b)
        (by rw [List.length_drop]; simp only [List.length_cons] at hl ⊢; omega)]
      exact List.take_append_drop b (x :: t)

theorem chunks_flatten {α : Type} (xs : List α) (b : Nat) (hb : 1 ≤ b) :
    (chunks xs b).flatten = xs :=
  chunksAux_flatten b hb xs.length xs le_rfl

theorem flatten_toFinset {α : Type} [DecidableEq α] :
    ∀ L : List (List α),
      L.flatten.toFinset = L.foldr (fun batch acc => batch.toFinset ∪ acc) ∅
  | [] => rfl
  | batch :: t => by
    simp only [List.flatten_cons, List.toFinset_append, List.foldr_cons]
    rw [flatten_toFinset t]

/-- Claim C7: slicing a list of actions into consecutive batches of size
`b ≥ 1` partitions it exactly: the concatenation of the batches is the
original list, and the union of the batch action sets is the original
action set (so nothing is duplicated or omitted). -/
theorem batch_partition_exact (actions : List EmailAction) (b : Nat) (hb : 1 ≤ b) :
    (chunks actions b).flatten = actions ∧
    (chunks actions b).foldr (fun batch acc => batch.toFinset ∪ acc) ∅ =
      actions.toFinset := by
  refine ⟨chunks_flatten actions b hb, ?_⟩
  rw [← flatten_toFinset, chunks_flatten actions b hb]

/-- Witness for C7 at three concrete actions and batch size two. -/
theorem batch_partition_exact_witness :
    (chunks [EmailAction.mk "1" "r" "a" "s", EmailAction.mk "2" "r" "a" "s",
        EmailAction.mk "3" "r" "a" "s"] 2).flatten =
      [EmailAction.mk "1" "r" "a" "s", EmailAction.mk "2" "r" "a" "s",
        EmailAction.mk "3" "r" "a" "s"] ∧
    (chunks [EmailAction.mk "1" "r" "a" "s", EmailAction.mk "2" "r" "a" "s",
        EmailAction.mk "3" "r" "a" "s"] 2).foldr
        (fun batch acc => batch.toFinset ∪ acc) ∅ =
      [EmailAction.mk "1" "r" "a" "s", EmailAction.mk "2" "r" "a" "s",
        EmailAction.mk "3" "r" "a" "s"].toFinset :=
  batch_partition_exact
    [EmailAction.mk "1" "r" "a" "s", EmailAction.mk "2" "r" "a" "s",
      EmailAction.mk "3" "r" "a" "s"] 2 (by omega)

theorem execute_action_batch_dry (folder target : String) (moveOk : String → Bool)
    (acts : List EmailAction) :
    execute_action_batch folder acts target true moveOk = (acts.length, []) := by
  have aux : ∀ (l : List EmailAction) (n : Nat) (ops : List ProtoOp),
      List.foldl (fun (acc : Nat × List ProtoOp) (_ : EmailAction) =>
        (acc.1 + 1, acc.2)) (n, ops) l = (n + l.length, ops) := by
    intro l
    induction l with
    | nil => intro n ops; simp
    | cons a t ih =>
      intro n ops
      simp only [List.foldl_cons, List.length_cons]
      rw [ih (n + 1) ops]
      congr 1
      omega
  simp only [execute_action_batch, if_true]
  simpa using aux acts 0 []

theorem foldl_batches_dry :
    ∀ (L : List (List EmailAction)) (n : Nat) (ops : List ProtoOp),
      List.foldl (fun (acc : Nat × List ProtoOp) (batch : List EmailAction) =>
        (acc.1 + batch.length, acc.2)) (n, ops) L = (n + (L.map List.length).sum, ops)
  | [], n, ops => by simp
  | batch :: t, n, ops => by
    simp only [List.foldl_cons, List.map_cons, List.sum_cons]
    rw [foldl_batches_dry t (n + batch.length) ops]
    congr 1
    omega

theorem execute_actions_dry_foldl (folder target : String) (moveOk : String → Bool)
    (L : List (List EmailAction)) (n : Nat) (ops : List ProtoOp) :
    List.foldl (fun (acc : Nat × List ProtoOp) batch =>
      let r := execute_action_batch folder batch target true moveOk
      (acc.1 + r.1, acc.2 ++ r.2)) (n, ops) L = (n + (L.map List.length).sum, ops) := by
  simp only [execute_action_batch_dry, List.append_nil]
  exact foldl_batches_dry L n ops

/-- Claim C6: in dry-run mode, action execution issues no protocol call at
all — in particular no mutating call and no writable folder select — and
the reported moved count is the number of queued Process actions (one
would-move per action). -/
theorem dry_run_no_mutation (folder target : String) (actions : List EmailAction)
    (batch_size : Nat) (moveOk : String → Bool) (hb : 1 ≤ batch_size) :
    execute_actions folder actions target true batch_size moveOk =
      (actions.length, []) := by
  simp only [execute_actions]
  rw [execute_actions_dry_foldl folder target moveOk (chunks actions batch_size) 0 []]
  have hsum : ((chunks actions batch_size).map List.length).sum = actions.length := by
    rw [← List.length_flatten, chunks_flatten actions batch_size hb]
  rw [hsum]
  simp

/-- Witness for C6 at three concrete actions, batch size two, and a move
oracle that would refuse every move (irrelevant in dry-run). -/
theorem dry_run_no_mutation_witness :
    execute_actions "INBOX"
      [EmailAction.mk "1" "r" "a" "s", EmailAction.mk "2" "r" "a" "s",
        EmailAction.mk "3" "r" "a" "s"] "Review" true 2 (fun _ => false) = (3, []) := by
  have h := dry_run_no_mutation "INBOX" "Review"
    [EmailAction.mk "1" "r" "a" "s", EmailAction.mk "2" "r" "a" "s",
      EmailAction.mk "3" "r" "a" "s"] 2 (fun _ => false) (by omega)
  rw [h]
  decide

/-- Claim C8: `fetch_headers` never propagates a failure: a raised exception
around the FETCH, a non-OK status, absent response data, or a parse failure
each yield `(none, none)` (the embedding is total because the code catches
every exception), and a successful fetch yields the raw From header and the
decoded, stripped Subject. -/
theorem fetch_headers_spec {Raw : Type} [DecidableEq Raw]
    (parseMsg : Raw → Option (String × String)) :
    (fetch_headers parseMsg FetchOutcome.exc = (none, none)) ∧
    (∀ typ msg_data, (typ ≠ "OK" ∨ msg_data = [] ∨ msg_data.head? = some none) →
      fetch_headers parseMsg (FetchOutcome.resp typ msg_data) = (none, none)) ∧
    (∀ raw rest, parseMsg raw = none →
      fetch_headers parseMsg (FetchOutcome.resp "OK" (some raw :: rest)) =
        (none, none)) ∧
    (∀ raw rest f s, parseMsg raw = some (f, s) →
      fetch_headers parseMsg (FetchOutcome.resp "OK" (some raw :: rest)) =
        (some f, some (pyStrip s))) := by
  refine ⟨rfl, ?_, ?_, ?_⟩
  · intro typ msg_data h
    simp only [fetch_headers]
    rw [if_pos h]
  · intro raw rest hparse
    simp [fetch_headers, hparse]
  · intro raw rest f s hparse
    simp [fetch_headers, hparse]

/-- Witness for C8: a concrete successful fetch (subject stripped), and a
concrete non-OK response. -/
theorem fetch_headers_spec_witness :
    fetch_headers
        (fun r : String => if r = "X" then none else some ("From A", " Subj "))
        (FetchOutcome.resp "OK" [some "r"]) = (some "From A", some "Subj") ∧
    fetch_headers
        (fun r : String => if r = "X" then none else some ("From A", " Subj "))
        (FetchOutcome.resp "NO" [some "r"]) = (none, none) := by
  constructor
  · have h := (fetch_headers_spec
      (fun r => if r = "X" then none else some ("From A", " Subj "))).2.2.2
      "r" [] "From A" " Subj " (by decide)
    rw [h]
    decide
  · exact (fetch_headers_spec
      (fun r => if r = "X" then none else some ("From A", " Subj "))).2.1
      "NO" [some "r"] (by simp)

/-- Claim C9: `move_email` tries the atomic UID MOVE first and reports
success when its status is OK; on a non-OK MOVE status it falls back to UID
COPY, then flag-for-deletion, then expunge, reporting success on that path;
it reports failure when the COPY fails (non-OK status or a raised
exception); the result is a Boolean in every case, and every raised
exception is caught (the embedding is total). -/
theorem move_email_spec (env : MoveEnv) :
    (env.uidMove = Except.ok "OK" → move_email env = true) ∧
    (∀ typ, env.uidMove = Except.ok typ → typ ≠ "OK" →
      env.uidCopy = Except.ok "OK" → env.uidStore = Except.ok () →
      env.expunge = Except.ok () → move_email env = true) ∧
    (∀ typ, env.uidMove = Except.ok typ → typ ≠ "OK" →
      ((∃ ctyp, env.uidCopy = Except.ok ctyp ∧ ctyp ≠ "OK") ∨
        env.uidCopy = Except.error ()) →
      move_email env = false) := by
  refine ⟨?_, ?_, ?_⟩
  · intro h
    simp [move_email, h]
  · intro typ hmv hne hcp hst hex
    simp [move_email, hmv, hne, hcp, hst, hex]
  · intro typ hmv hne hcopy
    rcases hcopy with ⟨ctyp, hcp, hcne⟩ | hcp
    · simp [move_email, hmv, hne, hcp, hcne]
    · simp [move_email, hmv, hne, hcp]

/-- Witness for C9: the COPY/STORE/EXPUNGE fallback path succeeds on a
concrete environment whose MOVE is rejected. -/
theorem move_email_spec_witness :
    move_email (MoveEnv.mk (Except.ok "NO") (Except.ok "OK")
      (Except.ok ()) (Except.ok ())) = true :=
  (move_email_spec (MoveEnv.mk (Except.ok "NO") (Except.ok "OK")
    (Except.ok ()) (Except.ok ()))).2.1 "NO" rfl (by decide) rfl rfl rfl

theorem listHasSub_singleton (c : Char) :
    ∀ l : List Char, listHasSub [c] l = true ↔ c ∈ l := by
  intro l
  induction l with
  | nil => simp [listHasSub]
  | cons d t ih =>
    simp only [listHasSub, List.isPrefixOf, Bool.or_eq_true, List.mem_cons, ih]
    constructor
    · rintro (h | h)
      · left
        have := Bool.and_eq_true .. |>.mp h
        exact (beq_iff_eq ..).mp this.1
      · right; exact h
    · rintro (h | h)
      · left
        simp [h]
      · right; exact h

theorem takeWhile_append_of_exists_not {α : Type} (p : α → Bool) :
    ∀ (l₁ l₂ : List α), (∃ x ∈ l₁, p x = false) →
      (l₁ ++ l₂).takeWhile p = l₁.takeWhile p := by
  intro l₁
  induction l₁ with
  | nil =>
    intro l₂ h
    simp at h
  | cons a t ih =>
    intro l₂ h
    by_cases hpa : p a = true
    · simp only [List.cons_append, List.takeWhile_cons, hpa, if_true]
      rw [ih l₂ ?_]
      obtain ⟨x, hx, hpx⟩ := h
      rcases List.mem_cons.mp hx with rfl | hxt
      · rw [hpa] at hpx; cases hpx
      · exact ⟨x, hxt, hpx⟩
    · have hpa2 : p a = false := by
        revert hpa; cases p a <;> simp
      simp [List.takeWhile_cons, hpa2]

theorem takeWhile_append_of_all {α : Type} (p : α → Bool) :
    ∀ (l₁ l₂ : List α), (∀ x ∈ l₁, p x = true) →
      (l₁ ++ l₂).takeWhile p = l₁ ++ l₂.takeWhile p := by
  intro l₁
  induction l₁ with
  | nil => intro l₂ _; simp
  | cons a t ih =>
    intro l₂ h
    have hpa : p a = true := h a (List.mem_cons_self a t)
    simp only [List.cons_append, List.takeWhile_cons, hpa, if_true]
    rw [ih l₂ (fun x hx => h x (List.mem_cons_of_mem a hx))]

theorem afterLast_of_not_mem (sep : Char) (l : List Char) (h : sep ∉ l) :
    afterLast sep l = l := by
  unfold afterLast
  rw [List.takeWhile_eq_self_iff.mpr ?_, List.reverse_reverse]
  intro x hx
  have : x ≠ sep := fun e => h (e ▸ List.mem_reverse.mp hx)
  simp [this]

theorem afterLast_cons (sep c : Char) (t : List Char) :
    afterLast sep (c :: t) =
      if sep ∈ t then afterLast sep t else (if c = sep then t else c :: t) := by
  unfold afterLast
  rw [List.reverse_cons]
  by_cases hm : sep ∈ t
  · rw [if_pos hm,
      takeWhile_append_of_exists_not _ t.reverse [c]
        ⟨sep, List.mem_reverse.mpr hm, by simp⟩]
  · rw [if_neg hm,
      takeWhile_append_of_all _ t.reverse [c]
        (fun x hx => by
          have : x ≠ sep := fun e => hm (e ▸ List.mem_reverse.mp hx)
          simp [this])]
    by_cases hc : c = sep
    · subst hc
      simp
    · simp [hc]

theorem pySplit_ne_nil (sep : Char) : ∀ l : List Char, pySplit sep l ≠ []
  | [] => by simp [pySplit]
  | c :: t => by
    simp only [pySplit]
    split
    · simp
    · cases h : pySplit sep t with
      | nil => exact absurd h (pySplit_ne_nil sep t)
      | cons x xs => simp [List.modifyHead]

theorem pySplit_of_not_mem (sep : Char) : ∀ l : List Char, sep ∉ l → pySplit sep l = [l]
  | [], _ => rfl
  | c :: t, h => by
    have hc : ¬(c = sep) := fun e => h (e ▸ List.mem_cons_self c t)
    simp only [pySplit, if_neg hc]
    rw [pySplit_of_not_mem sep t (fun ht => h (List.mem_cons_of_mem c ht))]
    rfl

theorem pySplit_length_of_mem (sep : Char) :
    ∀ l : List Char, sep ∈ l → 2 ≤ (pySplit sep l).length
  | c :: t, hm => by
    simp only [pySplit]
    by_cases hc : c = sep
    · rw [if_pos hc]
      have := pySplit_ne_nil sep t
      simp only [List.length_cons]
      have : 1 ≤ (pySplit sep t).length := List.length_pos.mpr (pySplit_ne_nil sep t)
      omega
    · rw [if_neg hc]
      rw [List.length_modifyHead]
      apply pySplit_length_of_mem sep t
      rcases List.mem_cons.mp hm with e | ht
      · exact absurd e.symm hc
      · exact ht

theorem getLastD_of_ne_nil {α : Type} (l : List α) (h : l ≠ []) (a b : α) :
    l.getLastD a = l.getLastD b := by
  rw [List.getLastD_eq_getLast?, List.getLastD_eq_getLast?, List.getLast?_eq_getLast l h]
  rfl

theorem getLastD_modifyHead {α : Type} (f : α → α) :
    ∀ (l : List α), 2 ≤ l.length → ∀ d, (l.modifyHead f).getLastD d = l.getLastD d
  | x :: y :: t, _, d => by
    simp only [List.modifyHead, List.getLastD_cons]

theorem pySplit_getLastD (sep : Char) :
    ∀ l : List Char, (pySplit sep l).getLastD [] = afterLast sep l
  | [] => rfl
  | c :: t => by
    by_cases hc : c = sep
    · simp only [pySplit, if_pos hc]
      rw [List.getLastD_cons, pySplit_getLastD sep t, afterLast_cons, if_pos hc]
      by_cases hm : sep ∈ t
      · rw [if_pos hm]
      · rw [if_neg hm, afterLast_of_not_mem sep t hm]
    · simp only [pySplit, if_neg hc]
      by_cases hm : sep ∈ t
      · rw [getLastD_modifyHead _ _ (pySplit_length_of_mem sep t hm),
          pySplit_getLastD sep t, afterLast_cons, if_pos hm]
      · rw [pySplit_of_not_mem sep t hm, afterLast_cons, if_neg hm, if_neg hc]
        rfl

theorem pyContains_at_iff (addr : String) :
    pyContains addr "@" = true ↔ (Char.ofNat 64) ∈ addr.toList := by
  have h64 : ("@" : String).toList = [Char.ofNat 64] := by decide
  rw [pyContains, h64]
  exact listHasSub_singleton (Char.ofNat 64) addr.toList

theorem parse_from_address_eq (pa : String → String) (f : String) :
    parse_from_address pa f =
      (pyLower (pa f), domainAfterLastAt (pyLower (pa f))) := by
  simp only [parse_from_address, domainAfterLastAt]
  by_cases hm : (Char.ofNat 64) ∈ (pyLower (pa f)).toList
  · rw [if_pos ((pyContains_at_iff (pyLower (pa f))).mpr hm), if_pos hm]
    rw [pySplit_getLastD]
  · rw [if_neg (fun hby => hm ((pyContains_at_iff (pyLower (pa f))).mp hby)),
      if_neg hm]

/-- Claim C10: `parse_from_address` returns the parsed address lowercased
together with the substring of that lowercased address after its last `@`
(the empty string when it has no `@`); consequently the result — and hence
whitelist and deletion-domain matching — depends on the parsed sender
address only up to letter case. -/
theorem parse_from_address_spec (pa₁ pa₂ : String → String) (f₁ f₂ : String)
    (h : pyLower (pa₁ f₁) = pyLower (pa₂ f₂)) :
    parse_from_address pa₁ f₁ =
      (pyLower (pa₁ f₁), domainAfterLastAt (pyLower (pa₁ f₁))) ∧
    parse_from_address pa₁ f₁ = parse_from_address pa₂ f₂ := by
  refine ⟨parse_from_address_eq pa₁ f₁, ?_⟩
  rw [parse_from_address_eq pa₁ f₁, parse_from_address_eq pa₂ f₂, h]

/-- Witness for C10 at a concrete mixed-case header: the address is
lowercased, the domain is the part after the last `@`, and a sender
differing only in case parses identically. -/
theorem parse_from_address_spec_witness :
    (pyLower (id "A@B.Com") = pyLower ((fun _ => "a@b.com") "")) ∧
    (parse_from_address id "A@B.Com" =
        (pyLower (id "A@B.Com"), domainAfterLastAt (pyLower (id "A@B.Com"))) ∧
      parse_from_address id "A@B.Com" = parse_from_address (fun _ => "a@b.com") "") := by
  refine ⟨by decide, parse_from_address_spec id (fun _ => "a@b.com") "A@B.Com" "" (by decide)⟩
